import Mathlib

/-!
# Verification of the AlgoPulse problem-pool allocator (src/daily_question.py)

A shallow embedding of the allocator core of `daily_question.py`:

* `clean_ai_response` — the markdown-fence cleaner (lines 33-47);
* `call_ai` — the single Gemini call (lines 49-69), with the HTTP layer
  modelled as an oracle for the response and a trace of the requests made;
* `refill_bank` — JSON decode of the provider text and batch insert into the
  question bank (lines 71-92);
* `get_problem` — claim-or-refill allocator loop (lines 94-108), modelled
  with explicit fuel since the Python recursion has no depth bound.

The Firestore collection `question_bank` is modelled as a list of
`ProblemRecord`s in insertion order; a Firestore document id is the record's
index in that list.  `json.loads` / `json.dumps` (Python standard library)
are modelled by an executable JSON value type `Json` with a printer
`jsonDumps` and a fuel-indexed parser `jsonLoads`, together with a proved
round-trip theorem.  Known deliberate simplifications of the JSON model,
none of which any theorem below depends on: numbers are integers (no
floats, no exponent/fraction syntax, no NaN/Infinity), `\uXXXX` escapes are
not decoded, leading zeros in numerals are accepted, and `jsonDumps` uses
the named escapes plus raw output for characters Python would `\u`-escape.
-/

/-! ## Characters and Python-style string helpers

Python `str.strip()` removes whitespace from both ends — modelled with the
six ASCII whitespace characters below (Python would also strip some rarer
Unicode space characters, which no input here contains); `str.split(sep)` cuts at non-overlapping occurrences of `sep` scanning
left to right, keeping empty pieces.  All string work is done on `List Char`
and wrapped into `String` at the boundary.
-/

def isPyWs (c : Char) : Bool :=
  c == ' ' || c == '\t' || c == '\n' || c == '\r' || c == '\x0b' || c == '\x0c'

/-- Python `str.strip()` on a character list. -/
def pyStrip (s : List Char) : List Char :=
  ((s.dropWhile isPyWs).reverse.dropWhile isPyWs).reverse

/-- The backtick character (spelled by code so the source text stays plain). -/
def tickChar : Char := '\x60'

/-- Prepend a character to the first group of a split result (the groups are
never empty, but the `[]` case keeps the function total). -/
def consHead (c : Char) : List (List Char) → List (List Char)
  | [] => [[c]]
  | g :: gs => (c :: g) :: gs

/-- Python `text.split(three backticks)`: cut at each non-overlapping
occurrence of the three-character fence, scanning left to right. -/
def splitTicks : List Char → List (List Char)
  | [] => [[]]
  | [c] => [[c]]
  | [c1, c2] => [[c1, c2]]
  | c1 :: c2 :: c3 :: cs =>
    if c1 = tickChar ∧ c2 = tickChar ∧ c3 = tickChar then
      [] :: splitTicks cs
    else
      consHead c1 (splitTicks (c2 :: c3 :: cs))

/-- Python `text.split(newline)`. -/
def splitNl : List Char → List (List Char)
  | [] => [[]]
  | c :: cs =>
    if c = '\n' then [] :: splitNl cs else consHead c (splitNl cs)

/-- Python `(newline).join(groups)`. -/
def joinNl : List (List Char) → List Char
  | [] => []
  | [g] => g
  | g :: gs => g ++ '\n' :: joinNl gs

/-- Python `text.replace(three backticks, empty)` equals joining the split
groups with nothing in between. -/
def joinAll : List (List Char) → List Char
  | [] => []
  | g :: gs => g ++ joinAll gs

/-! ## ResponseNormalizer: `clean_ai_response` (lines 33-47)

```python
def clean_ai_response(text):
    if not text:
        return ""
    if "BT BT BT" in text:                      # BT = backtick
        parts = text.split("BT BT BT")
        if len(parts) >= 3:
            text = parts[1]
            if "NL" in text:
                text = "NL".join(text.split("NL")[1:])
        else:
            text = text.replace("BT BT BT", "")
    return text.strip()
```

`"sep" in text` is equivalent to `text.split(sep)` having at least two
groups.  The first line of the fenced content is dropped whenever the
content has a newline, with no check of what that line contains.
-/

def cleanCore (text : List Char) : List Char :=
  if text = [] then []
  else
    let parts := splitTicks text
    if 2 ≤ parts.length then
      if 3 ≤ parts.length then
        let t := parts.getD 1 []
        let t2 := if 2 ≤ (splitNl t).length then joinNl ((splitNl t).drop 1) else t
        pyStrip t2
      else
        pyStrip (joinAll parts)
    else
      pyStrip text

/-- `clean_ai_response` of the source, on `String`. -/
def clean_ai_response (text : String) : String := ⟨cleanCore text.data⟩

/-! ## The spec's reference normalizer (spec 4.2), for the refinement claim

The spec's words: if at least one balanced delimiter pair exists, the result
is the content strictly between the first opening delimiter and its matching
closing delimiter, with that content's first line dropped only when it looks
like a language tag (no embedded structural characters); if delimiters are
unbalanced or absent, the raw string with surrounding whitespace trimmed.
-/

/-- A JSON-structural character; a line containing one does not look like a
bare language tag such as `json` or `python`. -/
def structuralChar (c : Char) : Bool :=
  c == '\x7b' || c == '\x7d' || c == '[' || c == ']' || c == '"' || c == ':' || c == ','

/-- Whether a line looks like a language tag: no embedded structural
characters. -/
def looksLikeLangTag (l : List Char) : Bool := l.all (fun c => !structuralChar c)

/-- Reference definition following the spec's words (section 4.2), for
comparison with `clean_ai_response`. -/
def specNormalizeCore (raw : List Char) : List Char :=
  let parts := splitTicks raw
  if 3 ≤ parts.length then
    let content := parts.getD 1 []
    let ls := splitNl content
    if 2 ≤ ls.length ∧ looksLikeLangTag (ls.getD 0 []) then
      pyStrip (joinNl (ls.drop 1))
    else pyStrip content
  else pyStrip raw

/-- The spec's reference normalizer, on `String`. -/
def spec_normalize (raw : String) : String := ⟨specNormalizeCore raw.data⟩

/-- The normalizer the code actually implements, stated the way the amended
claim reads: with at least one balanced fence pair, the fenced content with
its first line dropped whenever the content spans several lines (no language
tag check), stripped; with a single unmatched fence, the raw text with the
fence deleted, stripped; with no fence, the raw text stripped; empty input
gives the empty string. -/
def amendedNormalizeCore (raw : List Char) : List Char :=
  if raw = [] then []
  else
    let parts := splitTicks raw
    let occurrences := parts.length - 1
    if 2 ≤ occurrences then
      let content := parts.getD 1 []
      let ls := splitNl content
      pyStrip (if 2 ≤ ls.length then joinNl (ls.drop 1) else content)
    else if occurrences = 1 then
      pyStrip (joinAll parts)
    else
      pyStrip raw

/-- The amended normalizer, on `String`. -/
def amended_normalize (raw : String) : String := ⟨amendedNormalizeCore raw.data⟩

/-! ## JSON values: the model of Python `json.loads` / `json.dumps`

`refill_bank` decodes the provider text with `json.loads` and stores each
element re-serialized with `json.dumps`.  `Json` is the value domain; the
printer follows `json.dumps`'s default output (separators `", "` and `": "`,
the named escapes); the parser is fuel-indexed and total.
-/

inductive Json where
  | null
  | bool (b : Bool)
  | num (n : Int)
  | str (s : String)
  | arr (xs : List Json)
  | obj (fields : List (String × Json))

/-- JSON insignificant whitespace. -/
def jsonWs (c : Char) : Bool := c == ' ' || c == '\n' || c == '\t' || c == '\r'

/-- Discard leading JSON whitespace. -/
def dropWs : List Char → List Char
  | [] => []
  | c :: cs => if jsonWs c then dropWs cs else c :: cs

/-- How `json.dumps` writes one character inside a string literal. -/
def escJ (c : Char) : List Char :=
  if c = '"' then ['\\', '"']
  else if c = '\\' then ['\\', '\\']
  else if c = '\n' then ['\\', 'n']
  else if c = '\t' then ['\\', 't']
  else if c = '\r' then ['\\', 'r']
  else if c = '\x08' then ['\\', 'b']
  else if c = '\x0c' then ['\\', 'f']
  else [c]

/-- The character a string-literal escape stands for. -/
def unescJ (c : Char) : Option Char :=
  if c = '"' then some '"'
  else if c = '\\' then some '\\'
  else if c = '/' then some '/'
  else if c = 'n' then some '\n'
  else if c = 't' then some '\t'
  else if c = 'r' then some '\r'
  else if c = 'b' then some '\x08'
  else if c = 'f' then some '\x0c'
  else none

/-- Escape a whole string body. -/
def escStr : List Char → List Char
  | [] => []
  | c :: cs => escJ c ++ escStr cs

/-- Read a string body up to the closing quote, undoing escapes. -/
def strBody : List Char → Option (List Char × List Char)
  | [] => none
  | c :: cs =>
    if c = '"' then some ([], cs)
    else if c = '\\' then
      match cs with
      | [] => none
      | e :: cs2 =>
        match unescJ e with
        | none => none
        | some u =>
          match strBody cs2 with
          | none => none
          | some (body, r) => some (u :: body, r)
    else
      match strBody cs with
      | none => none
      | some (body, r) => some (c :: body, r)

/-- The digit character of `d` (callers keep `d < 10`; the catch-all keeps the
function total). -/
def digCh (d : Nat) : Char :=
  match d with
  | 0 => '0' | 1 => '1' | 2 => '2' | 3 => '3' | 4 => '4'
  | 5 => '5' | 6 => '6' | 7 => '7' | 8 => '8' | _ => '9'

/-- Decimal digits of `n`, most significant first. -/
def natDigs (n : Nat) : List Char :=
  if n < 10 then [digCh n] else natDigs (n / 10) ++ [digCh (n % 10)]
termination_by n
decreasing_by exact Nat.div_lt_self (by omega) (by omega)

/-- `json.dumps` for an integer. -/
def intChars (i : Int) : List Char :=
  if i < 0 then '-' :: natDigs i.natAbs else natDigs i.natAbs

/-- The longest digit prefix and what follows it. -/
def grabDigits : List Char → List Char × List Char
  | [] => ([], [])
  | c :: cs =>
    if c.isDigit then ((c :: (grabDigits cs).1), (grabDigits cs).2) else ([], c :: cs)

/-- The value of a digit string, most significant first. -/
def digsVal (ds : List Char) : Nat :=
  ds.foldl (fun a c => a * 10 + (c.toNat - 48)) 0

/-- Read a nonempty digit run as a natural number. -/
def parseIntFrom (s : List Char) : Option (Nat × List Char) :=
  match grabDigits s with
  | ([], _) => none
  | (ds, r) => some (digsVal ds, r)

mutual

/-- `json.dumps` output as characters (Python's default separators). -/
def Json.dumpChars : Json → List Char
  | .null => 'n' :: 'u' :: 'l' :: 'l' :: []
  | .bool true => 't' :: 'r' :: 'u' :: 'e' :: []
  | .bool false => 'f' :: 'a' :: 'l' :: 's' :: 'e' :: []
  | .num n => intChars n
  | .str s => '"' :: (escStr s.data ++ ['"'])
  | .arr [] => ['[', ']']
  | .arr (x :: xs) => '[' :: (Json.dumpChars x ++ dumpMoreItems xs ++ [']'])
  | .obj [] => ['\x7b', '\x7d']
  | .obj (f :: fs) => '\x7b' :: (dumpField f ++ dumpMoreFields fs ++ ['\x7d'])

/-- Items after the first, each preceded by `", "`. -/
def dumpMoreItems : List Json → List Char
  | [] => []
  | x :: xs => ',' :: ' ' :: (Json.dumpChars x ++ dumpMoreItems xs)

/-- One `"key": value` member. -/
def dumpField : String × Json → List Char
  | (k, v) => '"' :: (escStr k.data ++ '"' :: ':' :: ' ' :: Json.dumpChars v)

/-- Members after the first, each preceded by `", "`. -/
def dumpMoreFields : List (String × Json) → List Char
  | [] => []
  | f :: fs => ',' :: ' ' :: (dumpField f ++ dumpMoreFields fs)

end

/-- `json.dumps` of the model. -/
def jsonDumps (j : Json) : String := ⟨j.dumpChars⟩

mutual

/-- Parse one JSON value after discarding leading whitespace.  Structural on
`fuel`; `jsonLoads` passes enough fuel for any input. -/
def parseJVal : Nat → List Char → Option (Json × List Char)
  | 0, _ => none
  | fuel + 1, s =>
    match dropWs s with
    | [] => none
    | c :: r =>
      if c.isDigit then
        match parseIntFrom (c :: r) with
        | some (n, r2) => some (.num (n : Int), r2)
        | none => none
      else if c = '-' then
        match parseIntFrom r with
        | some (n, r2) => some (.num (-(n : Int)), r2)
        | none => none
      else if c = '"' then
        match strBody r with
        | some (body, r2) => some (.str ⟨body⟩, r2)
        | none => none
      else if c = '[' then
        match dropWs r with
        | [] => none
        | c2 :: r2 =>
          if c2 = ']' then some (.arr [], r2)
          else
            match parseJItems fuel (c2 :: r2) with
            | some (xs, r3) => some (.arr xs, r3)
            | none => none
      else if c = '\x7b' then
        match dropWs r with
        | [] => none
        | c2 :: r2 =>
          if c2 = '\x7d' then some (.obj [], r2)
          else
            match parseJFields fuel (c2 :: r2) with
            | some (fs, r3) => some (.obj fs, r3)
            | none => none
      else if c = 'n' then
        match r with
        | 'u' :: 'l' :: 'l' :: r2 => some (.null, r2)
        | _ => none
      else if c = 't' then
        match r with
        | 'r' :: 'u' :: 'e' :: r2 => some (.bool true, r2)
        | _ => none
      else if c = 'f' then
        match r with
        | 'a' :: 'l' :: 's' :: 'e' :: r2 => some (.bool false, r2)
        | _ => none
      else none

/-- Parse one or more comma-separated array items up to the closing bracket. -/
def parseJItems : Nat → List Char → Option (List Json × List Char)
  | 0, _ => none
  | fuel + 1, s =>
    match parseJVal fuel s with
    | none => none
    | some (v, r) =>
      match dropWs r with
      | [] => none
      | c :: r2 =>
        if c = ',' then
          match parseJItems fuel r2 with
          | some (xs, r3) => some (v :: xs, r3)
          | none => none
        else if c = ']' then some ([v], r2)
        else none

/-- Parse one or more comma-separated object members up to the closing brace. -/
def parseJFields : Nat → List Char → Option (List (String × Json) × List Char)
  | 0, _ => none
  | fuel + 1, s =>
    match dropWs s with
    | [] => none
    | c :: r =>
      if c = '"' then
        match strBody r with
        | none => none
        | some (key, r1) =>
          match dropWs r1 with
          | [] => none
          | c2 :: r2 =>
            if c2 = ':' then
              match parseJVal fuel r2 with
              | none => none
              | some (v, r3) =>
                match dropWs r3 with
                | [] => none
                | c3 :: r4 =>
                  if c3 = ',' then
                    match parseJFields fuel r4 with
                    | some (fs, r5) => some ((⟨key⟩, v) :: fs, r5)
                    | none => none
                  else if c3 = '\x7d' then some ([(⟨key⟩, v)], r4)
                  else none
            else none
      else none

end

/-- `json.loads` of the model: parse a complete document, no trailing text. -/
def jsonLoads (s : String) : Option Json :=
  match parseJVal (s.data.length + 1) s.data with
  | some (j, r) => if dropWs r = [] then some j else none
  | none => none

/-! ## GenerationProvider: `call_ai` (lines 49-69)

The HTTP boundary is `requests.post`, modelled as an oracle `HttpOutcome`
for what one post returns.  The source performs exactly one post per call —
there is no retry loop, no sleep, and no credential check before the post —
so `call_ai` records a trace of one post and no sleeps whatever the outcome.
A 200 response's candidate text is run through `clean_ai_response`; any
other status and any raised exception print an error and yield `None`.
-/

inductive HttpOutcome where
  /-- Status 200 with a well-formed envelope carrying the candidate text. -/
  | success (text : String)
  /-- A non-200 status (`429` models the rate-limited case). -/
  | httpError (code : Nat) (body : String)
  /-- An exception out of `requests.post` or the envelope field access. -/
  | failure (msg : String)
deriving DecidableEq

/-- How Python interpolates `os.getenv` output into the URL f-string: a
missing key prints as the four characters `None`. -/
def keyStr : Option String → String
  | none => "None"
  | some k => k

/-- The request URL of line 52, exactly as the source builds it (the markdown
link artifact around the endpoint is part of the string). -/
def ai_url (key : Option String) : String :=
  "[https://generativelanguage.googleapis.com/v1beta/models/gemini-2.0-flash:generateContent?key=](https://generativelanguage.googleapis.com/v1beta/models/gemini-2.0-flash:generateContent?key=)"
    ++ keyStr key

/-- What one `call_ai` invocation returns and the I/O trace it makes:
`posts` counts invocations of `requests.post`, `sleeps` the backoff delays
taken inside the call. -/
structure CallResult where
  result : Option String
  posts : Nat
  sleeps : List Nat
deriving DecidableEq

/-- `call_ai` of the source: build the URL, post once, clean a 200 response's
text, return `None` on anything else.  The key is interpolated into the URL
and never branched on. -/
def call_ai (key : Option String) (net : HttpOutcome) : CallResult :=
  let _url := ai_url key
  { result :=
      match net with
      | .success t => some (clean_ai_response t)
      | .httpError _ _ => none
      | .failure _ => none
    posts := 1
    sleeps := [] }

/-! ## PoolStore: the `question_bank` collection

A bank is the list of records in insertion order; a document id is the
record's index.  `bank_ref.add` at line 84 stores `topic`, `difficulty`,
`problem_data = json.dumps(p)`, `used = False` and `createdAt`; the update
at line 102 sets `used = True` and `usedAt`.  Timestamps are clock ticks.
-/

structure ProblemRecord where
  topic : String
  difficulty : String
  problem_data : String
  used : Bool
  createdAt : Nat
  usedAt : Option Nat
deriving DecidableEq

/-- The line-96-98 query filter: same topic, same difficulty, not yet used.
Firestore returns matches in an unspecified order with `limit(1)`; the model
takes the first match in insertion order (no theorem depends on which
matching record is returned). -/
def matchesKey (t d : String) (r : ProblemRecord) : Bool :=
  r.topic == t && r.difficulty == d && r.used == false

/-- The `limit(1).stream()` query: index and record of the first unconsumed
match, if any. -/
def findUnused : List ProblemRecord → String → String → Option (Nat × ProblemRecord)
  | [], _, _ => none
  | r :: rest, t, d =>
    if matchesKey t d r then some (0, r)
    else
      match findUnused rest t d with
      | some (i, x) => some (i + 1, x)
      | none => none

/-- The line-102 update: set `used` and `usedAt`, touch nothing else. -/
def markRec (r : ProblemRecord) (now : Nat) : ProblemRecord :=
  { r with used := true, usedAt := some now }

/-! ## Allocator: `refill_bank` (lines 71-92) and `get_problem` (94-108) -/

/-- Python `dict.get`: the value stored at a key (`json.loads` keeps the last
of duplicate keys, so lookup is last-wins). -/
def lookupField (fields : List (String × Json)) (key : String) : Option Json :=
  fields.foldl (fun acc f => if f.1 == key then some f.2 else acc) none

/-- Lines 80-81: `problems = data if isinstance(data, list) else
data.get('problems', [])`.  `none` models the `AttributeError` raised (and
caught at line 90) when `data` is neither a list nor a dict. -/
def select_problems : Json → Option Json
  | .arr xs => some (.arr xs)
  | .obj fields => some ((lookupField fields "problems").getD (.arr []))
  | _ => none

/-- The sequence `for p in problems` iterates: a list's elements, a string's
characters, a dict's keys; `none` models the `TypeError` for a non-iterable
value, raised before any insertion. -/
def iterSeq : Json → Option (List Json)
  | .arr xs => some xs
  | .str s => some (s.data.map (fun c => .str ⟨[c]⟩))
  | .obj fields => some (fields.map (fun f => .str f.1))
  | _ => none

/-- The record `bank_ref.add` writes at lines 84-87: the key's topic and
difficulty, the payload re-serialized with `json.dumps`, `used = False`. -/
def mkRecord (t d : String) (now : Nat) (p : Json) : ProblemRecord :=
  ⟨t, d, jsonDumps p, false, now, none⟩

/-- `refill_bank` given the text `call_ai` returned (`none` for a failed
call).  Python's `if not raw` also treats the empty string as a failed call.
Every failure path returns before any insertion, so the bank is unchanged on
`false`; the success path appends one record per iterated element and
returns `True` even when that count is zero. -/
def refill_bank (bank : List ProblemRecord) (topic difficulty : String)
    (aiResult : Option String) (now : Nat) : List ProblemRecord × Bool :=
  match aiResult with
  | none => (bank, false)
  | some raw =>
    if raw = "" then (bank, false)
    else
      match jsonLoads raw with
      | none => (bank, false)
      | some data =>
        match select_problems data with
        | none => (bank, false)
        | some probVal =>
          match iterSeq probVal with
          | none => (bank, false)
          | some ps => (bank ++ ps.map (mkRecord topic difficulty now), true)

/-- What one `get_problem` call returns: a claimed record's `problem_data`
string, Python's `None`, or fuel exhaustion (the source recursion at line
107 has no depth bound, so the model makes the missing bound explicit). -/
inductive AcquireResult where
  | payload (s : String)
  | unavailable
  | outOfFuel
deriving DecidableEq

/-- `get_problem` of the source, fuel-indexed: claim the first unconsumed
match (query, then a separate unconditional update), else refill and — when
the refill reports success — recurse; a failed refill returns `None`.  `net`
is the response oracle indexed by the provider-call counter `k`; the
`time.sleep(2)` before the recursive call changes no state and is not
modelled. -/
def get_problem : Nat → List ProblemRecord → String → String →
    (Nat → HttpOutcome) → Option String → Nat → Nat → AcquireResult × List ProblemRecord
  | 0, bank, _, _, _, _, _, _ => (.outOfFuel, bank)
  | fuel + 1, bank, topic, difficulty, net, key, k, now =>
    match findUnused bank topic difficulty with
    | some (i, r) => (.payload r.problem_data, bank.set i (markRec r now))
    | none =>
      match refill_bank bank topic difficulty (call_ai key (net k)).result now with
      | (bank2, true) => get_problem fuel bank2 topic difficulty net key (k + 1) (now + 1)
      | (bank2, false) => (.unavailable, bank2)

/-! ## Two concurrent claims, at the granularity of the store calls

The claim step of `get_problem` is two separate Firestore operations: the
filtered query (read) and the unconditional `update` (write).  `race_two`
is the interleaving in which both callers run their query before either
update lands — each step is atomic at the store, only their order varies.
-/

/-- Both callers read first, then both write; each returns the payload its
own query produced. -/
def race_two (bank : List ProblemRecord) (t d : String) (now1 now2 : Nat) :
    Option String × Option String × List ProblemRecord :=
  let r1 := findUnused bank t d
  let r2 := findUnused bank t d
  let bank1 := match r1 with | some (i, r) => bank.set i (markRec r now1) | none => bank
  let bank2 := match r2 with | some (i, r) => bank1.set i (markRec r now2) | none => bank1
  (r1.map (fun p => p.2.problem_data), r2.map (fun p => p.2.problem_data), bank2)

/-! ## Relations the invariant claims are stated with -/

/-- How one record may evolve across an allocator run: immutable fields
keep their values; a consumed record is never touched again (so never rolled
back); an unconsumed record either stays as it is or flips to consumed with
`usedAt` set — the only two fields that ever change. -/
def recEvolves (r r2 : ProblemRecord) : Prop :=
  r2.topic = r.topic ∧ r2.difficulty = r.difficulty ∧
  r2.problem_data = r.problem_data ∧ r2.createdAt = r.createdAt ∧
  (r.used = true → r2 = r) ∧
  (r2.used = false → r2 = r) ∧
  (r.used = false → r2.used = true → r2.usedAt.isSome = true)

/-- Every record's payload string is `json.dumps` of some value (true of
every record the allocator itself inserts). -/
def BankWF (bank : List ProblemRecord) : Prop :=
  ∀ r ∈ bank, ∃ p : Json, r.problem_data = jsonDumps p

/-! ## The claims under test, as stated -/

/-- Claim C1 as stated, at the concrete key and the always-empty-but-well-
formed provider: some finite fuel makes `get_problem` on an empty pool
return the not-available result. -/
def C1_claim : Prop :=
  ∃ fuel, (get_problem fuel [] "Arrays" "Easy"
    (fun _ => .success "[]") (some "KEY") 0 0).1 = AcquireResult.unavailable

/-- The single-record bank both racing claimants contend for. -/
def raceRec : ProblemRecord := ⟨"Arrays", "Medium", "PAYLOAD-1", false, 0, none⟩

/-- The results of the two interleaved claims against `[raceRec]`. -/
def raceRun : Option String × Option String × List ProblemRecord :=
  race_two [raceRec] "Arrays" "Medium" 5 6

/-- Claim C2 as stated at N = 2, M = 1: of two concurrent claims on a
single-record pool, at most one may succeed. -/
def C2_claim : Prop := ¬(raceRun.1.isSome = true ∧ raceRun.2.1.isSome = true)

/-- Claim C3 as stated, at the empty-sequence input: a refill that obtained
zero records is reported failed. -/
def C3_claim : Prop := (refill_bank [] "Graphs" "Hard" (some "[]") 0).2 = false

/-- Claim C5 as stated, for a provider that is rate-limited on every
attempt: the call retries (posts at least twice) with backoff sleeps. -/
def C5_claim : Prop :=
  2 ≤ (call_ai (some "KEY") (.httpError 429 "rate limited")).posts ∧
    (call_ai (some "KEY") (.httpError 429 "rate limited")).sleeps ≠ []

/-- Claim C6 as stated, for a missing credential: no network I/O is
attempted. -/
def C6_claim : Prop := (call_ai none (.httpError 403 "forbidden")).posts = 0

/-! # Theorems

First the normalizer.  `cleanCore` (the source) and `amendedNormalizeCore`
(the corrected description) branch on the same split, with the fence count
written differently and the strip pushed inside one branch; the spec's
reference `specNormalizeCore` differs on the language-tag check and on the
unbalanced-fence fallback, which the C4 counterexample exhibits.
-/

theorem cleanCore_eq_amended (t : List Char) : cleanCore t = amendedNormalizeCore t := by
  unfold cleanCore amendedNormalizeCore
  by_cases h0 : t = []
  · simp [h0]
  · simp only [if_neg h0]
    split_ifs with h1 h2 h3 h4 <;> first
      | rfl
      | omega

/-- Claim C4: for every input string, `normalize` (the source's
`clean_ai_response`) equals the spec's reference normalizer — fenced content
extracted with its first line dropped only when it looks like a language
tag, raw trimmed input on unbalanced or absent fences, never throwing,
empty for empty input.  As stated this fails (see `C4_counterexample`):
the code drops the fenced content's first line whenever the content has a
newline, whatever that line contains, and deletes a lone unmatched fence
instead of keeping the raw text.  The amended claim proved here:
`clean_ai_response` equals `amended_normalize`, the corrected reference
with exactly those two changes (it is total, so it never throws, and maps
the empty string to the empty string by its first branch). -/
theorem C4_thm (text : String) : clean_ai_response text = amended_normalize text :=
  congrArg String.mk (cleanCore_eq_amended text.data)

/-- Concrete inputs on which `clean_ai_response` differs from the spec's
reference normalizer: fenced content whose first line is `[1]` (structural
characters, so the spec keeps it; the code drops it), and an unmatched
single fence (the spec keeps the raw text; the code deletes the fence). -/
theorem C4_counterexample :
    clean_ai_response "```[1]\n[2]```" ≠ spec_normalize "```[1]\n[2]```" ∧
    clean_ai_response "```[1]\n[2]```" = "[2]" ∧
    spec_normalize "```[1]\n[2]```" = "[1]\n[2]" ∧
    clean_ai_response "a```b" ≠ spec_normalize "a```b" ∧
    clean_ai_response "a```b" = "ab" ∧
    spec_normalize "a```b" = "a```b" := by
  refine ⟨?_, ?_, ?_, ?_, ?_, ?_⟩ <;> decide

/-! ## Digit and number lemmas for the JSON codec round-trip -/

theorem digCh_isDigit (d : Nat) (h : d < 10) : (digCh d).isDigit = true := by
  interval_cases d <;> decide

theorem digCh_val (d : Nat) (h : d < 10) : (digCh d).toNat - 48 = d := by
  interval_cases d <;> decide

theorem natDigs_digits (n : Nat) : ∀ c ∈ natDigs n, c.isDigit = true := by
  induction n using Nat.strongRecOn with
  | _ n ih =>
    rw [natDigs.eq_def]
    by_cases h : n < 10
    · simp only [if_pos h, List.mem_singleton]
      rintro c rfl
      exact digCh_isDigit n h
    · simp only [if_neg h]
      intro c hc
      rcases List.mem_append.mp hc with h1 | h2
      · exact ih (n / 10) (Nat.div_lt_self (by omega) (by omega)) c h1
      · rw [List.mem_singleton] at h2
        subst h2
        exact digCh_isDigit _ (Nat.mod_lt _ (by omega))

theorem natDigs_ne_nil (n : Nat) : natDigs n ≠ [] := by
  rw [natDigs.eq_def]
  by_cases h : n < 10 <;> simp [h]

theorem natDigs_head (n : Nat) : ∃ c t, natDigs n = c :: t ∧ c.isDigit = true := by
  match h : natDigs n with
  | [] => exact absurd h (natDigs_ne_nil n)
  | c :: t => exact ⟨c, t, rfl, natDigs_digits n c (h ▸ List.mem_cons_self c t)⟩

theorem digsVal_last (ds : List Char) (c : Char) :
    digsVal (ds ++ [c]) = digsVal ds * 10 + (c.toNat - 48) := by
  simp [digsVal, List.foldl_append]

theorem digsVal_natDigs (n : Nat) : digsVal (natDigs n) = n := by
  induction n using Nat.strongRecOn with
  | _ n ih =>
    rw [natDigs.eq_def]
    by_cases h : n < 10
    · simp only [if_pos h]
      show digsVal ([] ++ [digCh n]) = n
      rw [digsVal_last, digCh_val n h]
      simp [digsVal]
    · simp only [if_neg h]
      rw [digsVal_last, ih (n / 10) (Nat.div_lt_self (by omega) (by omega)),
        digCh_val _ (Nat.mod_lt _ (by omega))]
      omega

theorem grabDigits_cons_not {c : Char} {t : List Char} (h : c.isDigit = false) :
    grabDigits (c :: t) = ([], c :: t) := by
  simp [grabDigits, h]

theorem grabDigits_append (ds : List Char) (hds : ∀ c ∈ ds, c.isDigit = true)
    (rest : List Char) (hstop : grabDigits rest = ([], rest)) :
    grabDigits (ds ++ rest) = (ds, rest) := by
  induction ds with
  | nil => simpa using hstop
  | cons c t ih =>
    have hc : c.isDigit = true := hds c (List.mem_cons_self c t)
    have ht := ih (fun x hx => hds x (List.mem_cons_of_mem c hx))
    simp [grabDigits, hc, ht]

theorem parseIntFrom_natDigs (n : Nat) (rest : List Char)
    (hstop : grabDigits rest = ([], rest)) :
    parseIntFrom (natDigs n ++ rest) = some (n, rest) := by
  obtain ⟨c, t, hcons, -⟩ := natDigs_head n
  rw [parseIntFrom, grabDigits_append (natDigs n) (natDigs_digits n) rest hstop]
  rw [hcons]
  simp only []
  rw [← hcons, digsVal_natDigs]

/-! ## String-escape and whitespace lemmas -/

theorem escJ_spec (c : Char) :
    (escJ c = [c] ∧ c ≠ '"' ∧ c ≠ '\\') ∨
      (∃ e, escJ c = ['\\', e] ∧ unescJ e = some c) := by
  by_cases h1 : c = '"'
  · exact Or.inr ⟨'"', by simp [escJ, h1], by subst h1; decide⟩
  by_cases h2 : c = '\\'
  · exact Or.inr ⟨'\\', by simp [escJ, h1, h2], by subst h2; decide⟩
  by_cases h3 : c = '\n'
  · exact Or.inr ⟨'n', by simp [escJ, h1, h2, h3], by subst h3; decide⟩
  by_cases h4 : c = '\t'
  · exact Or.inr ⟨'t', by simp [escJ, h1, h2, h3, h4], by subst h4; decide⟩
  by_cases h5 : c = '\r'
  · exact Or.inr ⟨'r', by simp [escJ, h1, h2, h3, h4, h5], by subst h5; decide⟩
  by_cases h6 : c = '\x08'
  · exact Or.inr ⟨'b', by simp [escJ, h1, h2, h3, h4, h5, h6], by subst h6; decide⟩
  by_cases h7 : c = '\x0c'
  · exact Or.inr ⟨'f', by simp [escJ, h1, h2, h3, h4, h5, h6, h7], by subst h7; decide⟩
  · exact Or.inl ⟨by simp [escJ, h1, h2, h3, h4, h5, h6, h7], h1, h2⟩

theorem strBody_quote (rest : List Char) : strBody ('"' :: rest) = some ([], rest) := by
  rw [strBody.eq_def]
  rfl

theorem strBody_esc_step (e : Char) (cs : List Char) :
    strBody ('\\' :: e :: cs) =
      (match unescJ e with
       | none => none
       | some u =>
         match strBody cs with
         | none => none
         | some (b, r) => some (u :: b, r)) := by
  rw [strBody.eq_def]
  rfl

theorem strBody_plain_step (c : Char) (cs : List Char) (hq : c ≠ '"') (hbs : c ≠ '\\') :
    strBody (c :: cs) =
      (match strBody cs with
       | none => none
       | some (b, r) => some (c :: b, r)) := by
  rw [strBody.eq_def]
  simp only [if_neg hq, if_neg hbs]

theorem strBody_escStr (cs : List Char) : ∀ rest : List Char,
    strBody (escStr cs ++ '"' :: rest) = some (cs, rest) := by
  induction cs with
  | nil => intro rest; exact strBody_quote rest
  | cons c t ih =>
    intro rest
    rcases escJ_spec c with ⟨hplain, hq, hbs⟩ | ⟨e, hesc, hun⟩
    · have harg : escStr (c :: t) ++ '"' :: rest = c :: (escStr t ++ '"' :: rest) := by
        show escJ c ++ escStr t ++ '"' :: rest = _
        rw [hplain]
        simp
      rw [harg, strBody_plain_step c _ hq hbs, ih rest]
    · have harg : escStr (c :: t) ++ '"' :: rest = '\\' :: e :: (escStr t ++ '"' :: rest) := by
        show escJ c ++ escStr t ++ '"' :: rest = _
        rw [hesc]
        simp
      rw [harg, strBody_esc_step, hun, ih rest]

theorem dropWs_not_ws {c : Char} {t : List Char} (h : jsonWs c = false) :
    dropWs (c :: t) = c :: t := by
  simp [dropWs, h]

/-- A decimal digit is none of the characters the parser dispatches on and
is not whitespace. -/
theorem digit_facts {c : Char} (h : c.isDigit = true) :
    jsonWs c = false ∧ c ≠ ']' ∧ c ≠ '\x7d' ∧ c ≠ ',' := by
  have hws : jsonWs c = false := by
    simp only [jsonWs, Bool.or_eq_false_iff, beq_eq_false_iff_ne]
    refine ⟨⟨⟨?_, ?_⟩, ?_⟩, ?_⟩ <;> (rintro rfl; exact absurd h (by decide))
  refine ⟨hws, ?_, ?_, ?_⟩ <;> (rintro rfl; exact absurd h (by decide))

/-- Every printed value starts with a character that is not whitespace and
closes nothing. -/
theorem dumpChars_head (j : Json) :
    ∃ c t, Json.dumpChars j = c :: t ∧ jsonWs c = false ∧ c ≠ ']' ∧ c ≠ '\x7d' := by
  have hgood : ∀ c : Char, (c.isDigit = true ∨ c = 'n' ∨ c = 't' ∨ c = 'f' ∨ c = '"' ∨
      c = '[' ∨ c = '\x7b' ∨ c = '-') → jsonWs c = false ∧ c ≠ ']' ∧ c ≠ '\x7d' := by
    intro c hc
    rcases hc with hd | rfl | rfl | rfl | rfl | rfl | rfl | rfl
    · obtain ⟨h1, h2, h3, -⟩ := digit_facts hd
      exact ⟨h1, h2, h3⟩
    all_goals exact ⟨rfl, by decide, by decide⟩
  cases j with
  | num n =>
    have hnum : Json.dumpChars (.num n) = intChars n := by simp [Json.dumpChars]
    by_cases hn : n < 0
    · refine ⟨'-', natDigs n.natAbs, ?_, hgood '-' (by decide)⟩
      rw [hnum, intChars, if_pos hn]
    · obtain ⟨c, t, hcons, hdig⟩ := natDigs_head n.natAbs
      refine ⟨c, t, ?_, hgood c (Or.inl hdig)⟩
      rw [hnum, intChars, if_neg hn, hcons]
  | null =>
    exact ⟨'n', ['u', 'l', 'l'], by simp [Json.dumpChars], hgood 'n' (by decide)⟩
  | bool b =>
    cases b with
    | true => exact ⟨'t', ['r', 'u', 'e'], by simp [Json.dumpChars], hgood 't' (by decide)⟩
    | false =>
      exact ⟨'f', ['a', 'l', 's', 'e'], by simp [Json.dumpChars], hgood 'f' (by decide)⟩
  | str s =>
    exact ⟨'"', escStr s.data ++ ['"'], by simp [Json.dumpChars], hgood '"' (by decide)⟩
  | arr xs =>
    cases xs with
    | nil => exact ⟨'[', [']'], by simp [Json.dumpChars], hgood '[' (by decide)⟩
    | cons x more =>
      exact ⟨'[', Json.dumpChars x ++ dumpMoreItems more ++ [']'],
        by simp [Json.dumpChars], hgood '[' (by decide)⟩
  | obj fs =>
    cases fs with
    | nil => exact ⟨'\x7b', ['\x7d'], by simp [Json.dumpChars], hgood '\x7b' (by decide)⟩
    | cons g more =>
      exact ⟨'\x7b', dumpField g ++ dumpMoreFields more ++ ['\x7d'],
        by simp [Json.dumpChars], hgood '\x7b' (by decide)⟩

theorem dumpChars_ne_nil (j : Json) : Json.dumpChars j ≠ [] := by
  obtain ⟨c, t, hcons, -⟩ := dumpChars_head j
  simp [hcons]

/-- Leading whitespace never changes what a value parse sees. -/
theorem parseJVal_space (f : Nat) (s : List Char) :
    parseJVal f (' ' :: s) = parseJVal f s := by
  cases f <;> rfl

/-! ## Parser step lemmas: one unfolding per dispatch head -/

theorem parseJVal_null (f : Nat) (rest : List Char) :
    parseJVal (f + 1) ('n' :: 'u' :: 'l' :: 'l' :: rest) = some (.null, rest) := by
  rw [parseJVal.eq_def]
  rfl

theorem parseJVal_true (f : Nat) (rest : List Char) :
    parseJVal (f + 1) ('t' :: 'r' :: 'u' :: 'e' :: rest) = some (.bool true, rest) := by
  rw [parseJVal.eq_def]
  rfl

theorem parseJVal_false (f : Nat) (rest : List Char) :
    parseJVal (f + 1) ('f' :: 'a' :: 'l' :: 's' :: 'e' :: rest) = some (.bool false, rest) := by
  rw [parseJVal.eq_def]
  rfl

theorem parseJVal_quote (f : Nat) (body : List Char) :
    parseJVal (f + 1) ('"' :: body) =
      (match strBody body with
       | some (b, r2) => some (.str ⟨b⟩, r2)
       | none => none) := by
  rw [parseJVal.eq_def]
  rfl

theorem parseJVal_neg (f : Nat) (r : List Char) :
    parseJVal (f + 1) ('-' :: r) =
      (match parseIntFrom r with
       | some (n, r2) => some (.num (-(n : Int)), r2)
       | none => none) := by
  rw [parseJVal.eq_def]
  rfl

theorem parseJVal_lbrack (f : Nat) (r : List Char) :
    parseJVal (f + 1) ('[' :: r) =
      (match dropWs r with
       | [] => none
       | c2 :: r2 =>
         if c2 = ']' then some (.arr [], r2)
         else
           match parseJItems f (c2 :: r2) with
           | some (xs, r3) => some (.arr xs, r3)
           | none => none) := by
  rw [parseJVal.eq_def]
  rfl

theorem parseJVal_lbrace (f : Nat) (r : List Char) :
    parseJVal (f + 1) ('\x7b' :: r) =
      (match dropWs r with
       | [] => none
       | c2 :: r2 =>
         if c2 = '\x7d' then some (.obj [], r2)
         else
           match parseJFields f (c2 :: r2) with
           | some (fs, r3) => some (.obj fs, r3)
           | none => none) := by
  rw [parseJVal.eq_def]
  rfl

theorem parseJVal_digit (f : Nat) (c : Char) (r : List Char) (h : c.isDigit = true) :
    parseJVal (f + 1) (c :: r) =
      (match parseIntFrom (c :: r) with
       | some (n, r2) => some (.num (n : Int), r2)
       | none => none) := by
  obtain ⟨hws, -, -, -⟩ := digit_facts h
  rw [parseJVal.eq_def]
  simp only [dropWs_not_ws hws, h, if_pos]

theorem parseJItems_step (f : Nat) (s : List Char) :
    parseJItems (f + 1) s =
      (match parseJVal f s with
       | none => none
       | some (v, r) =>
         match dropWs r with
         | [] => none
         | c :: r2 =>
           if c = ',' then
             match parseJItems f r2 with
             | some (xs, r3) => some (v :: xs, r3)
             | none => none
           else if c = ']' then some ([v], r2)
           else none) := by
  rw [parseJItems.eq_def]

theorem parseJFields_step (f : Nat) (s : List Char) :
    parseJFields (f + 1) s =
      (match dropWs s with
       | [] => none
       | c :: r =>
         if c = '"' then
           match strBody r with
           | none => none
           | some (key, r1) =>
             match dropWs r1 with
             | [] => none
             | c2 :: r2 =>
               if c2 = ':' then
                 match parseJVal f r2 with
                 | none => none
                 | some (v, r3) =>
                   match dropWs r3 with
                   | [] => none
                   | c3 :: r4 =>
                     if c3 = ',' then
                       match parseJFields f r4 with
                       | some (fs, r5) => some ((⟨key⟩, v) :: fs, r5)
                       | none => none
                     else if c3 = '\x7d' then some ([(⟨key⟩, v)], r4)
                     else none
               else none
         else none) := by
  rw [parseJFields.eq_def]

theorem parseJItems_space (f : Nat) (s : List Char) :
    parseJItems f (' ' :: s) = parseJItems f s := by
  cases f with
  | zero => rfl
  | succ g => rw [parseJItems_step, parseJItems_step, parseJVal_space]

theorem parseJFields_space (f : Nat) (s : List Char) :
    parseJFields f (' ' :: s) = parseJFields f s := by
  cases f <;> rfl

/-! ## The codec round-trip -/

mutual

theorem rt_val : ∀ (j : Json) (f : Nat) (rest : List Char),
    (Json.dumpChars j).length < f → grabDigits rest = ([], rest) →
    parseJVal f (Json.dumpChars j ++ rest) = some (j, rest)
  | .null, f, rest, hf, _ => by
    cases f with
    | zero => exact absurd hf (Nat.not_lt_zero _)
    | succ g =>
      have harg : Json.dumpChars .null ++ rest = 'n' :: 'u' :: 'l' :: 'l' :: rest := by
        simp [Json.dumpChars]
      rw [harg, parseJVal_null]
  | .bool b, f, rest, hf, _ => by
    cases f with
    | zero => exact absurd hf (Nat.not_lt_zero _)
    | succ g =>
      cases b with
      | true =>
        have harg : Json.dumpChars (.bool true) ++ rest = 't' :: 'r' :: 'u' :: 'e' :: rest := by
          simp [Json.dumpChars]
        rw [harg, parseJVal_true]
      | false =>
        have harg : Json.dumpChars (.bool false) ++ rest
            = 'f' :: 'a' :: 'l' :: 's' :: 'e' :: rest := by
          simp [Json.dumpChars]
        rw [harg, parseJVal_false]
  | .num n, f, rest, hf, hstop => by
    cases f with
    | zero => exact absurd hf (Nat.not_lt_zero _)
    | succ g =>
      by_cases hn : n < 0
      · have harg : Json.dumpChars (.num n) ++ rest = '-' :: (natDigs n.natAbs ++ rest) := by
          simp [Json.dumpChars, intChars, hn]
        have hval : -((n.natAbs : Nat) : Int) = n := by omega
        rw [harg, parseJVal_neg, parseIntFrom_natDigs _ _ hstop]
        show some (Json.num (-((n.natAbs : Nat) : Int)), rest) = some (Json.num n, rest)
        rw [hval]
      · obtain ⟨c, t, hcons, hdig⟩ := natDigs_head n.natAbs
        have harg : Json.dumpChars (.num n) ++ rest = c :: (t ++ rest) := by
          simp [Json.dumpChars, intChars, hn, hcons]
        have hback : c :: (t ++ rest) = natDigs n.natAbs ++ rest := by
          rw [hcons]
          simp
        have hval : ((n.natAbs : Nat) : Int) = n := by omega
        rw [harg, parseJVal_digit g c _ hdig, hback, parseIntFrom_natDigs _ _ hstop]
        show some (Json.num ((n.natAbs : Nat) : Int), rest) = some (Json.num n, rest)
        rw [hval]
  | .str s, f, rest, hf, _ => by
    cases f with
    | zero => exact absurd hf (Nat.not_lt_zero _)
    | succ g =>
      have harg : Json.dumpChars (.str s) ++ rest = '"' :: (escStr s.data ++ '"' :: rest) := by
        simp [Json.dumpChars]
      rw [harg, parseJVal_quote, strBody_escStr]
  | .arr [], f, rest, hf, _ => by
    cases f with
    | zero => exact absurd hf (Nat.not_lt_zero _)
    | succ g =>
      have harg : Json.dumpChars (.arr []) ++ rest = '[' :: ']' :: rest := by
        simp [Json.dumpChars]
      rw [harg, parseJVal_lbrack]
      simp [dropWs_not_ws (show jsonWs ']' = false from by decide)]
  | .arr (x :: xs), f, rest, hf, _ => by
    cases f with
    | zero => exact absurd hf (Nat.not_lt_zero _)
    | succ g =>
      obtain ⟨c, t, hcons, hws, hbr, -⟩ := dumpChars_head x
      have harg : Json.dumpChars (.arr (x :: xs)) ++ rest
          = '[' :: (Json.dumpChars x ++ (dumpMoreItems xs ++ ']' :: rest)) := by
        simp [Json.dumpChars]
      have hshape : Json.dumpChars x ++ (dumpMoreItems xs ++ ']' :: rest)
          = c :: (t ++ (dumpMoreItems xs ++ ']' :: rest)) := by
        rw [hcons]
        simp
      have hlen : (Json.dumpChars x ++ dumpMoreItems xs).length + 1 < g := by
        have hdl : (Json.dumpChars (.arr (x :: xs))).length
            = (Json.dumpChars x).length + (dumpMoreItems xs).length + 2 := by
          simp only [Json.dumpChars, List.length_cons, List.length_append, List.length_nil]
          try omega
        rw [hdl] at hf
        simp only [List.length_append]
        omega
      rw [harg, parseJVal_lbrack, hshape, dropWs_not_ws hws]
      simp only [if_neg hbr]
      rw [← hshape, rt_items x xs g rest hlen]
  | .obj [], f, rest, hf, _ => by
    cases f with
    | zero => exact absurd hf (Nat.not_lt_zero _)
    | succ g =>
      have harg : Json.dumpChars (.obj []) ++ rest = '\x7b' :: '\x7d' :: rest := by
        simp [Json.dumpChars]
      rw [harg, parseJVal_lbrace]
      simp [dropWs_not_ws (show jsonWs '\x7d' = false from by decide)]
  | .obj ((k, v) :: fs), f, rest, hf, _ => by
    cases f with
    | zero => exact absurd hf (Nat.not_lt_zero _)
    | succ g =>
      have harg : Json.dumpChars (.obj ((k, v) :: fs)) ++ rest
          = '\x7b' :: (dumpField (k, v) ++ (dumpMoreFields fs ++ '\x7d' :: rest)) := by
        simp [Json.dumpChars]
      have hshape : dumpField (k, v) ++ (dumpMoreFields fs ++ '\x7d' :: rest)
          = '"' :: ((escStr k.data ++ '"' :: ':' :: ' ' :: Json.dumpChars v)
              ++ (dumpMoreFields fs ++ '\x7d' :: rest)) := by
        simp [dumpField]
      have hlen : (dumpField (k, v) ++ dumpMoreFields fs).length + 1 < g := by
        have hdl : (Json.dumpChars (.obj ((k, v) :: fs))).length
            = (dumpField (k, v)).length + (dumpMoreFields fs).length + 2 := by
          simp only [Json.dumpChars, List.length_cons, List.length_append, List.length_nil]
          try omega
        rw [hdl] at hf
        simp only [List.length_append]
        omega
      rw [harg, parseJVal_lbrace, hshape, dropWs_not_ws (show jsonWs '"' = false from by decide)]
      simp only [if_neg (show ¬('"' = '\x7d') from by decide)]
      rw [← hshape, rt_fields (k, v) fs g rest hlen]
termination_by j _ _ _ _ => sizeOf j

theorem rt_items : ∀ (x : Json) (xs : List Json) (f : Nat) (rest : List Char),
    (Json.dumpChars x ++ dumpMoreItems xs).length + 1 < f →
    parseJItems f (Json.dumpChars x ++ (dumpMoreItems xs ++ ']' :: rest)) = some (x :: xs, rest)
  | x, [], f, rest, hf => by
    cases f with
    | zero => exact absurd hf (Nat.not_lt_zero _)
    | succ g =>
      have hlenx : (Json.dumpChars x).length < g := by
        simp only [List.length_append] at hf
        omega
      have hx := rt_val x g (']' :: rest) hlenx (grabDigits_cons_not (by decide))
      have harg : Json.dumpChars x ++ (dumpMoreItems [] ++ ']' :: rest)
          = Json.dumpChars x ++ ']' :: rest := by
        simp [dumpMoreItems]
      rw [harg, parseJItems_step, hx]
      simp [dropWs_not_ws (show jsonWs ']' = false from by decide)]
  | x, y :: ys, f, rest, hf => by
    cases f with
    | zero => exact absurd hf (Nat.not_lt_zero _)
    | succ g =>
      have hitems : (dumpMoreItems (y :: ys)).length
          = (Json.dumpChars y).length + (dumpMoreItems ys).length + 2 := by
        simp only [dumpMoreItems, List.length_cons, List.length_append, List.length_nil]
        try omega
      have hlenx : (Json.dumpChars x).length < g := by
        simp only [List.length_append, hitems] at hf
        omega
      have hleny : (Json.dumpChars y ++ dumpMoreItems ys).length + 1 < g := by
        simp only [List.length_append, hitems] at hf
        simp only [List.length_append]
        omega
      have harg : Json.dumpChars x ++ (dumpMoreItems (y :: ys) ++ ']' :: rest)
          = Json.dumpChars x
              ++ (',' :: ' ' :: (Json.dumpChars y ++ (dumpMoreItems ys ++ ']' :: rest))) := by
        simp [dumpMoreItems]
      have hx := rt_val x g
        (',' :: ' ' :: (Json.dumpChars y ++ (dumpMoreItems ys ++ ']' :: rest))) hlenx
        (grabDigits_cons_not (by decide))
      have hrec := rt_items y ys g rest hleny
      rw [harg, parseJItems_step, hx]
      simp [dropWs_not_ws (show jsonWs ',' = false from by decide), parseJItems_space, hrec]
termination_by x xs _ _ _ => sizeOf x + sizeOf xs

theorem rt_fields : ∀ (kv : String × Json) (fs : List (String × Json)) (f : Nat)
    (rest : List Char),
    (dumpField kv ++ dumpMoreFields fs).length + 1 < f →
    parseJFields f (dumpField kv ++ (dumpMoreFields fs ++ '\x7d' :: rest)) = some (kv :: fs, rest)
  | (k, v), [], f, rest, hf => by
    cases f with
    | zero => exact absurd hf (Nat.not_lt_zero _)
    | succ g =>
      have hfield : (dumpField (k, v)).length
          = (escStr k.data).length + (Json.dumpChars v).length + 4 := by
        simp only [dumpField, List.length_cons, List.length_append, List.length_nil]
        try omega
      have hlenv : (Json.dumpChars v).length < g := by
        simp only [List.length_append, hfield] at hf
        omega
      have hv := rt_val v g ('\x7d' :: rest) hlenv (grabDigits_cons_not (by decide))
      have harg : dumpField (k, v) ++ (dumpMoreFields [] ++ '\x7d' :: rest)
          = '"' :: (escStr k.data ++ '"' :: (':' :: ' ' :: (Json.dumpChars v ++ '\x7d' :: rest))) := by
        simp [dumpField, dumpMoreFields]
      rw [harg, parseJFields_step, dropWs_not_ws (show jsonWs '"' = false from by decide)]
      simp only [if_pos (show ('"' : Char) = '"' from rfl)]
      rw [strBody_escStr]
      simp [dropWs_not_ws (show jsonWs ':' = false from by decide),
        dropWs_not_ws (show jsonWs '\x7d' = false from by decide), parseJVal_space, hv]
  | (k, v), (k2, v2) :: fs, f, rest, hf => by
    cases f with
    | zero => exact absurd hf (Nat.not_lt_zero _)
    | succ g =>
      have hfield : (dumpField (k, v)).length
          = (escStr k.data).length + (Json.dumpChars v).length + 4 := by
        simp only [dumpField, List.length_cons, List.length_append, List.length_nil]
        try omega
      have hmore : (dumpMoreFields ((k2, v2) :: fs)).length
          = (dumpField (k2, v2)).length + (dumpMoreFields fs).length + 2 := by
        simp only [dumpMoreFields, List.length_cons, List.length_append, List.length_nil]
        try omega
      have hlenv : (Json.dumpChars v).length < g := by
        simp only [List.length_append, hfield, hmore] at hf
        omega
      have hlen2 : (dumpField (k2, v2) ++ dumpMoreFields fs).length + 1 < g := by
        simp only [List.length_append, hfield, hmore] at hf
        simp only [List.length_append]
        omega
      have hv := rt_val v g
        (',' :: ' ' :: (dumpField (k2, v2) ++ (dumpMoreFields fs ++ '\x7d' :: rest))) hlenv
        (grabDigits_cons_not (by decide))
      have hrec := rt_fields (k2, v2) fs g rest hlen2
      have harg : dumpField (k, v) ++ (dumpMoreFields ((k2, v2) :: fs) ++ '\x7d' :: rest)
          = '"' :: (escStr k.data ++ '"' :: (':' :: ' ' :: (Json.dumpChars v
              ++ (',' :: ' ' :: (dumpField (k2, v2) ++ (dumpMoreFields fs ++ '\x7d' :: rest)))))) := by
        simp [dumpField, dumpMoreFields]
      rw [harg, parseJFields_step, dropWs_not_ws (show jsonWs '"' = false from by decide)]
      simp only [if_pos (show ('"' : Char) = '"' from rfl)]
      rw [strBody_escStr]
      simp [dropWs_not_ws (show jsonWs ':' = false from by decide),
        dropWs_not_ws (show jsonWs ',' = false from by decide), parseJVal_space, hv,
        parseJFields_space, hrec]
termination_by kv fs _ _ _ => sizeOf kv + sizeOf fs

end

/-- The codec round-trip: `json.loads` inverts `json.dumps` on every value. -/
theorem jsonLoads_jsonDumps (j : Json) : jsonLoads (jsonDumps j) = some j := by
  have hv := rt_val j ((Json.dumpChars j).length + 1) [] (by omega) rfl
  rw [List.append_nil] at hv
  rw [jsonLoads]
  show (match parseJVal ((Json.dumpChars j).length + 1) (Json.dumpChars j) with
    | some (a, r) => if dropWs r = [] then some a else none
    | none => none) = some j
  rw [hv]
  rfl

/-! ## Store and allocator lemmas -/

theorem findUnused_cons (r0 : ProblemRecord) (rest : List ProblemRecord) (t d : String) :
    findUnused (r0 :: rest) t d =
      (if matchesKey t d r0 then some (0, r0)
       else
         match findUnused rest t d with
         | some (i, x) => some (i + 1, x)
         | none => none) := rfl

theorem findUnused_some : ∀ (bank : List ProblemRecord) (t d : String) (i : Nat)
    (r : ProblemRecord), findUnused bank t d = some (i, r) →
    bank[i]? = some r ∧ r.topic = t ∧ r.difficulty = d ∧ r.used = false
  | [], t, d, i, r, h => by simp [findUnused] at h
  | r0 :: rest, t, d, i, r, h => by
    rw [findUnused_cons] at h
    by_cases hm : matchesKey t d r0
    · rw [if_pos hm] at h
      obtain ⟨rfl, rfl⟩ : 0 = i ∧ r0 = r := by
        simpa [Prod.ext_iff, eq_comm] using h
      simp only [matchesKey, Bool.and_eq_true, beq_iff_eq] at hm
      exact ⟨by simp, hm.1.1, hm.1.2, by simpa using hm.2⟩
    · rw [if_neg hm] at h
      match h2 : findUnused rest t d with
      | none => rw [h2] at h; exact absurd h (by simp)
      | some (i0, x) =>
        rw [h2] at h
        obtain ⟨rfl, rfl⟩ : i0 + 1 = i ∧ x = r := by
          simpa [Prod.ext_iff, eq_comm] using h
        obtain ⟨hg, ht, hd, hu⟩ := findUnused_some rest t d i0 x h2
        exact ⟨by simpa using hg, ht, hd, hu⟩

theorem findUnused_none : ∀ (bank : List ProblemRecord) (t d : String),
    findUnused bank t d = none → ∀ r ∈ bank, matchesKey t d r = false
  | [], _, _, _ => by simp
  | r0 :: rest, t, d, h => by
    rw [findUnused_cons] at h
    by_cases hm : matchesKey t d r0
    · rw [if_pos hm] at h
      exact absurd h (by simp)
    · rw [if_neg hm] at h
      intro r hr
      rcases List.mem_cons.mp hr with rfl | hr2
      · simpa using hm
      · match h2 : findUnused rest t d with
        | none => exact findUnused_none rest t d h2 r hr2
        | some (i0, x) => rw [h2] at h; exact absurd h (by simp)

/-- Everything `refill_bank` does to the bank: it appends a (possibly empty)
batch of records, each carrying the requested key, `used = false`,
`createdAt = now`, no `usedAt`, and a `json.dumps` payload; a failed refill
appends nothing. -/
theorem refill_bank_spec (bank : List ProblemRecord) (t d : String)
    (ai : Option String) (now : Nat) :
    ∃ new : List ProblemRecord,
      (refill_bank bank t d ai now).1 = bank ++ new ∧
      ((refill_bank bank t d ai now).2 = false → new = []) ∧
      ∀ r ∈ new, r.topic = t ∧ r.difficulty = d ∧ r.used = false ∧ r.createdAt = now ∧
        r.usedAt = none ∧ ∃ p : Json, r.problem_data = jsonDumps p := by
  match ai with
  | none => exact ⟨[], by simp [refill_bank], by simp, by simp⟩
  | some raw =>
    by_cases hr : raw = ""
    · exact ⟨[], by simp [refill_bank, hr], by simp, by simp⟩
    · match hL : jsonLoads raw with
      | none => exact ⟨[], by simp [refill_bank, hr, hL], by simp, by simp⟩
      | some data =>
        match hS : select_problems data with
        | none => exact ⟨[], by simp [refill_bank, hr, hL, hS], by simp, by simp⟩
        | some pv =>
          match hI : iterSeq pv with
          | none => exact ⟨[], by simp [refill_bank, hr, hL, hS, hI], by simp, by simp⟩
          | some ps =>
            refine ⟨ps.map (mkRecord t d now), by simp [refill_bank, hr, hL, hS, hI],
              by simp [refill_bank, hr, hL, hS, hI], ?_⟩
            intro r hr2
            obtain ⟨p, -, rfl⟩ := List.mem_map.mp hr2
            exact ⟨rfl, rfl, rfl, rfl, rfl, p, rfl⟩

/-- One unfolding of `get_problem` at successor fuel. -/
theorem get_problem_succ (fuel : Nat) (bank : List ProblemRecord) (t d : String)
    (net : Nat → HttpOutcome) (key : Option String) (k now : Nat) :
    get_problem (fuel + 1) bank t d net key k now =
      (match findUnused bank t d with
       | some (i, r) => (.payload r.problem_data, bank.set i (markRec r now))
       | none =>
         match refill_bank bank t d (call_ai key (net k)).result now with
         | (bank2, true) => get_problem fuel bank2 t d net key (k + 1) (now + 1)
         | (bank2, false) => (.unavailable, bank2)) := by
  rw [get_problem.eq_def]

theorem recEvolves_refl (r : ProblemRecord) : recEvolves r r := by
  refine ⟨rfl, rfl, rfl, rfl, fun _ => rfl, fun _ => rfl, fun h1 h2 => ?_⟩
  rw [h1] at h2
  cases h2

theorem recEvolves_markRec (r : ProblemRecord) (hu : r.used = false) (now : Nat) :
    recEvolves r (markRec r now) := by
  refine ⟨rfl, rfl, rfl, rfl, ?_, ?_, ?_⟩
  · intro h
    rw [h] at hu
    cases hu
  · intro h
    simp [markRec] at h
  · intro _ _
    simp [markRec]

theorem recEvolves_trans {a b c : ProblemRecord}
    (h1 : recEvolves a b) (h2 : recEvolves b c) : recEvolves a c := by
  obtain ⟨t1, d1, p1, c1, u1, v1, w1⟩ := h1
  obtain ⟨t2, d2, p2, c2, u2, v2, w2⟩ := h2
  refine ⟨t2.trans t1, d2.trans d1, p2.trans p1, c2.trans c1, ?_, ?_, ?_⟩
  · intro ha
    have hbu : b.used = true := by
      rw [u1 ha]
      exact ha
    exact (u2 hbu).trans (u1 ha)
  · intro hc
    have hcb := v2 hc
    have hbu : b.used = false := by
      rw [← hcb]
      exact hc
    exact hcb.trans (v1 hbu)
  · intro ha hc
    by_cases hbu : b.used = true
    · rw [u2 hbu]
      exact w1 ha hbu
    · exact w2 (by simpa using hbu) hc

/-- The bank-evolution invariant of one whole `get_problem` run: the bank
only ever grows, and every pre-existing record evolves by `recEvolves` —
consumed records are untouched, unconsumed ones at most flip to consumed
with `usedAt` set, and nothing is deleted or rewritten. -/
theorem get_problem_evolves : ∀ (fuel : Nat) (bank : List ProblemRecord) (t d : String)
    (net : Nat → HttpOutcome) (key : Option String) (k now : Nat),
    bank.length ≤ ((get_problem fuel bank t d net key k now).2).length ∧
    (∀ (i : Nat) (r r2 : ProblemRecord), bank[i]? = some r →
      ((get_problem fuel bank t d net key k now).2)[i]? = some r2 → recEvolves r r2) := by
  intro fuel
  induction fuel with
  | zero =>
    intro bank t d net key k now
    have h0 : (get_problem 0 bank t d net key k now).2 = bank := rfl
    rw [h0]
    refine ⟨le_refl _, fun i r r2 h1 h2 => ?_⟩
    obtain rfl : r = r2 := Option.some.inj (h1.symm.trans h2)
    exact recEvolves_refl r
  | succ fuel ih =>
    intro bank t d net key k now
    cases hq : findUnused bank t d with
    | some p =>
      obtain ⟨i0, r0⟩ := p
      obtain ⟨hg, -, -, hu0⟩ := findUnused_some bank t d i0 r0 hq
      have hres : (get_problem (fuel + 1) bank t d net key k now).2
          = bank.set i0 (markRec r0 now) := by
        rw [get_problem_succ, hq]
      rw [hres]
      refine ⟨by simp, fun i r r2 h1 h2 => ?_⟩
      by_cases hii : i = i0
      · subst hii
        obtain rfl : r = r0 := Option.some.inj (h1.symm.trans hg)
        obtain ⟨hlt, -⟩ := List.getElem?_eq_some.mp h1
        rw [List.getElem?_set_self hlt] at h2
        obtain rfl : markRec r now = r2 := Option.some.inj h2
        exact recEvolves_markRec r hu0 now
      · rw [List.getElem?_set_ne (Ne.symm hii)] at h2
        obtain rfl : r = r2 := Option.some.inj (h1.symm.trans h2)
        exact recEvolves_refl r
    | none =>
      obtain ⟨new, hb2, hnil, -⟩ :=
        refill_bank_spec bank t d (call_ai key (net k)).result now
      cases hr : (refill_bank bank t d (call_ai key (net k)).result now).2 with
      | false =>
        have hbank : (refill_bank bank t d (call_ai key (net k)).result now).1 = bank := by
          rw [hb2, hnil hr, List.append_nil]
        have hres : (get_problem (fuel + 1) bank t d net key k now).2 = bank := by
          rw [get_problem_succ, hq]
          rw [show refill_bank bank t d (call_ai key (net k)).result now
              = (bank, false) from Prod.ext hbank hr]
        rw [hres]
        refine ⟨le_refl _, fun i r r2 h1 h2 => ?_⟩
        obtain rfl : r = r2 := Option.some.inj (h1.symm.trans h2)
        exact recEvolves_refl r
      | true =>
        have hres : (get_problem (fuel + 1) bank t d net key k now)
            = get_problem fuel (bank ++ new) t d net key (k + 1) (now + 1) := by
          rw [get_problem_succ, hq]
          rw [show refill_bank bank t d (call_ai key (net k)).result now
              = (bank ++ new, true) from Prod.ext hb2 hr]
        rw [hres]
        obtain ⟨hlen, hev⟩ := ih (bank ++ new) t d net key (k + 1) (now + 1)
        refine ⟨le_trans (by simp) hlen, fun i r r2 h1 h2 => ?_⟩
        obtain ⟨hlt, -⟩ := List.getElem?_eq_some.mp h1
        have h1b : (bank ++ new)[i]? = some r := by
          rw [List.getElem?_append_left hlt]
          exact h1
        exact hev i r r2 h1b h2

/-- Frame property of one whole `get_problem` run: a record whose key is not
the requested one is left exactly as it was, at its original position. -/
theorem get_problem_frame : ∀ (fuel : Nat) (bank : List ProblemRecord) (t d : String)
    (net : Nat → HttpOutcome) (key : Option String) (k now : Nat),
    ∀ (i : Nat) (r : ProblemRecord), bank[i]? = some r →
      (r.topic ≠ t ∨ r.difficulty ≠ d) →
      ((get_problem fuel bank t d net key k now).2)[i]? = some r := by
  intro fuel
  induction fuel with
  | zero =>
    intro bank t d net key k now i r h1 hne
    exact h1
  | succ fuel ih =>
    intro bank t d net key k now i r h1 hne
    cases hq : findUnused bank t d with
    | some p =>
      obtain ⟨i0, r0⟩ := p
      obtain ⟨hg, ht0, hd0, -⟩ := findUnused_some bank t d i0 r0 hq
      have hres : (get_problem (fuel + 1) bank t d net key k now).2
          = bank.set i0 (markRec r0 now) := by
        rw [get_problem_succ, hq]
      rw [hres]
      have hii : i0 ≠ i := by
        rintro rfl
        obtain rfl : r0 = r := Option.some.inj (hg.symm.trans h1)
        rcases hne with hh | hh
        · exact hh ht0
        · exact hh hd0
      rw [List.getElem?_set_ne hii]
      exact h1
    | none =>
      obtain ⟨new, hb2, hnil, -⟩ :=
        refill_bank_spec bank t d (call_ai key (net k)).result now
      cases hr : (refill_bank bank t d (call_ai key (net k)).result now).2 with
      | false =>
        have hbank : (refill_bank bank t d (call_ai key (net k)).result now).1 = bank := by
          rw [hb2, hnil hr, List.append_nil]
        have hres : (get_problem (fuel + 1) bank t d net key k now).2 = bank := by
          rw [get_problem_succ, hq]
          rw [show refill_bank bank t d (call_ai key (net k)).result now
              = (bank, false) from Prod.ext hbank hr]
        rw [hres]
        exact h1
      | true =>
        have hres : (get_problem (fuel + 1) bank t d net key k now)
            = get_problem fuel (bank ++ new) t d net key (k + 1) (now + 1) := by
          rw [get_problem_succ, hq]
          rw [show refill_bank bank t d (call_ai key (net k)).result now
              = (bank ++ new, true) from Prod.ext hb2 hr]
        rw [hres]
        obtain ⟨hlt, -⟩ := List.getElem?_eq_some.mp h1
        have h1b : (bank ++ new)[i]? = some r := by
          rw [List.getElem?_append_left hlt]
          exact h1
        exact ih (bank ++ new) t d net key (k + 1) (now + 1) i r h1b hne

/-- `BankWF` survives a refill. -/
theorem refill_bank_wf (bank : List ProblemRecord) (t d : String)
    (ai : Option String) (now : Nat) (hwf : BankWF bank) :
    BankWF (refill_bank bank t d ai now).1 := by
  obtain ⟨new, hb2, -, hprops⟩ := refill_bank_spec bank t d ai now
  rw [hb2]
  intro r hr
  rcases List.mem_append.mp hr with h | h
  · exact hwf r h
  · exact (hprops r h).2.2.2.2.2

/-- A successful `get_problem` run over a well-formed bank returns a payload
string that is `json.dumps` of the claimed record's payload value. -/
theorem get_problem_payload_wf : ∀ (fuel : Nat) (bank : List ProblemRecord) (t d : String)
    (net : Nat → HttpOutcome) (key : Option String) (k now : Nat) (s : String),
    BankWF bank → (get_problem fuel bank t d net key k now).1 = .payload s →
    ∃ p : Json, s = jsonDumps p := by
  intro fuel
  induction fuel with
  | zero =>
    intro bank t d net key k now s hwf hp
    cases hp
  | succ fuel ih =>
    intro bank t d net key k now s hwf hp
    cases hq : findUnused bank t d with
    | some p =>
      obtain ⟨i0, r0⟩ := p
      obtain ⟨hg, -, -, -⟩ := findUnused_some bank t d i0 r0 hq
      have hres : (get_problem (fuel + 1) bank t d net key k now).1
          = .payload r0.problem_data := by
        rw [get_problem_succ, hq]
      rw [hres] at hp
      obtain rfl : r0.problem_data = s := by
        cases hp
        rfl
      exact hwf r0 (List.getElem?_mem hg)
    | none =>
      obtain ⟨new, hb2, hnil, -⟩ :=
        refill_bank_spec bank t d (call_ai key (net k)).result now
      cases hr : (refill_bank bank t d (call_ai key (net k)).result now).2 with
      | false =>
        have hbank : (refill_bank bank t d (call_ai key (net k)).result now).1 = bank := by
          rw [hb2, hnil hr, List.append_nil]
        have hres : (get_problem (fuel + 1) bank t d net key k now).1 = .unavailable := by
          rw [get_problem_succ, hq]
          rw [show refill_bank bank t d (call_ai key (net k)).result now
              = (bank, false) from Prod.ext hbank hr]
        rw [hres] at hp
        cases hp
      | true =>
        have hres : (get_problem (fuel + 1) bank t d net key k now)
            = get_problem fuel (bank ++ new) t d net key (k + 1) (now + 1) := by
          rw [get_problem_succ, hq]
          rw [show refill_bank bank t d (call_ai key (net k)).result now
              = (bank ++ new, true) from Prod.ext hb2 hr]
        rw [hres] at hp
        have hwf2 : BankWF (bank ++ new) := by
          rw [← hb2]
          exact refill_bank_wf bank t d (call_ai key (net k)).result now hwf
        exact ih (bank ++ new) t d net key (k + 1) (now + 1) s hwf2 hp

/-- With a provider that always returns the well-formed empty array, every
refill reports success while inserting nothing, and the source recursion
never terminates: every amount of fuel is exhausted with the pool unchanged. -/
theorem get_problem_empty_refill : ∀ (fuel : Nat) (t d : String) (key : Option String)
    (k now : Nat),
    get_problem fuel [] t d (fun _ => .success "[]") key k now = (.outOfFuel, []) := by
  intro fuel
  induction fuel with
  | zero => intro t d key k now; rfl
  | succ fuel ih =>
    intro t d key k now
    have hstep : get_problem (fuel + 1) [] t d (fun _ => .success "[]") key k now
        = get_problem fuel [] t d (fun _ => .success "[]") key (k + 1) (now + 1) := by
      rw [get_problem_succ]
      rfl
    rw [hstep, ih]

/-- When the pool has no unconsumed match and the refill fails, `get_problem`
returns Python's `None` with the bank unchanged. -/
theorem get_problem_fail (fuel : Nat) (bank : List ProblemRecord) (t d : String)
    (net : Nat → HttpOutcome) (key : Option String) (k now : Nat)
    (hq : findUnused bank t d = none)
    (hfail : (refill_bank bank t d (call_ai key (net k)).result now).2 = false) :
    get_problem (fuel + 1) bank t d net key k now = (.unavailable, bank) := by
  obtain ⟨new, hb2, hnil, -⟩ := refill_bank_spec bank t d (call_ai key (net k)).result now
  have hbank : (refill_bank bank t d (call_ai key (net k)).result now).1 = bank := by
    rw [hb2, hnil hfail, List.append_nil]
  rw [get_problem_succ, hq]
  rw [show refill_bank bank t d (call_ai key (net k)).result now
      = (bank, false) from Prod.ext hbank hfail]

/-! # Claim theorems -/

/-- Claim C1: for every key, if every refill inserts zero records (the
provider returns a well-formed but empty sequence on every call),
`acquire` terminates in finite time with the not-available result, with at
most one extra claim attempt after a successful refill.  As stated this
fails on the code (see `C1_counterexample`): `refill_bank` reports success
after inserting zero records and `get_problem` recurses with no depth
bound, so the run never terminates.  The amended claim proved here: under
always-empty-but-successful refills, every finite fuel is exhausted with
the pool unchanged (the recursion never returns), and `get_problem`
returns the not-available result precisely when a refill fails (here: a
rate-limited provider). -/
theorem C1_thm :
    (∀ (fuel : Nat) (t d : String) (key : Option String) (k now : Nat),
      get_problem fuel [] t d (fun _ => .success "[]") key k now = (.outOfFuel, [])) ∧
    (∀ (t d : String) (key : Option String),
      get_problem 1 [] t d (fun _ => .httpError 429 "rate limited") key 0 0
        = (.unavailable, [])) :=
  ⟨get_problem_empty_refill,
   fun t d key => get_problem_fail 0 [] t d (fun _ => .httpError 429 "rate limited")
     key 0 0 rfl rfl⟩

/-- Concrete refutation of C1 as stated: with the always-empty provider on
an empty pool, no amount of fuel makes `get_problem` return the
not-available result — the recursion never terminates. -/
theorem C1_counterexample : ¬C1_claim := by
  intro h
  obtain ⟨fuel, h⟩ := h
  rw [get_problem_empty_refill fuel "Arrays" "Easy" (some "KEY") 0 0] at h
  exact absurd h (by decide)

/-- Claim C2: with N concurrent `acquire` calls against M unconsumed records
(M < N), exactly M succeed with no record claimed twice, because the
select-and-mark is a single conditional write.  As stated this fails on the
code (see `C2_counterexample`): the claim is a Firestore query followed by
a separate unconditional `update`, so in the interleaving where both of two
callers run their query before either update, both claims succeed with the
same record.  The amended claim proved here: in the read-read-write-write
interleaving on a one-record pool both callers receive the same payload
(at-most-once is violated), while under sequential execution one record
satisfies exactly one of two `acquire` calls and the second returns the
not-available result. -/
theorem C2_thm :
    raceRun.1 = some "PAYLOAD-1" ∧ raceRun.2.1 = some "PAYLOAD-1" ∧
    (get_problem 1 [raceRec] "Arrays" "Medium"
      (fun _ => .httpError 503 "unavailable") (some "K") 0 0).1 = .payload "PAYLOAD-1" ∧
    (get_problem 2
      (get_problem 1 [raceRec] "Arrays" "Medium"
        (fun _ => .httpError 503 "unavailable") (some "K") 0 0).2
      "Arrays" "Medium" (fun _ => .httpError 503 "unavailable") (some "K") 0 1).1
        = .unavailable := by
  refine ⟨rfl, rfl, rfl, ?_⟩
  decide

/-- Concrete refutation of C2 as stated: both interleaved claimants of the
single-record pool succeed. -/
theorem C2_counterexample : ¬C2_claim := by
  unfold C2_claim
  decide

/-- Claim C3: `parse` yields a failure whenever strict decoding fails or no
usable sequence is present, and a refill that obtained zero records is not
reported successful.  The first half holds; the second fails on the code
(see `C3_counterexample`): `refill_bank` returns `True` after inserting
zero records for `[]` and for a mapping without a usable `problems` field.
The amended claim proved here: a failed call and a decode error yield a
failed refill with the bank unchanged, while an empty decoded sequence
yields reported success with zero insertions. -/
theorem C3_thm :
    (∀ (bank : List ProblemRecord) (t d : String) (now : Nat),
      refill_bank bank t d none now = (bank, false)) ∧
    (∀ (bank : List ProblemRecord) (t d raw : String) (now : Nat),
      jsonLoads raw = none → refill_bank bank t d (some raw) now = (bank, false)) ∧
    refill_bank [] "Graphs" "Hard" (some "[]") 0 = ([], true) ∧
    refill_bank [] "Graphs" "Hard" (some "\x7b\x7d") 0 = ([], true) := by
  refine ⟨fun bank t d now => rfl, fun bank t d raw now hL => ?_, rfl, rfl⟩
  by_cases hr : raw = ""
  · subst hr
    rfl
  · simp [refill_bank, hr, hL]

/-- Witness for C3's decode-error clause at a concrete undecodable input. -/
theorem C3_witness : refill_bank [] "T" "D" (some "oops") 7 = ([], false) :=
  C3_thm.2.1 [] "T" "D" "oops" 7 rfl

/-- Concrete refutation of C3 as stated: the refill that decoded `[]` and
inserted zero records reports success, not failure. -/
theorem C3_counterexample : ¬C3_claim := by
  unfold C3_claim
  decide

/-- Claim C5: on a rate-limited response the same provider is retried with
delays from an ascending backoff schedule up to a fixed ceiling, and a
provider that is always rate-limited is attempted exactly the ceiling
number of times before `Exhausted`.  As stated this fails on the code (see
`C5_counterexample`): `call_ai` performs exactly one `requests.post` per
call, sleeps never, and returns `None` on any non-200 status — there is no
retry loop at all.  The amended claim proved here: on every rate-limited
(or any failing) response the provider is attempted exactly once with no
backoff sleeps, and the call fails with `None`. -/
theorem C5_thm (key : Option String) (code : Nat) (body msg : String) :
    call_ai key (.httpError code body) = ⟨none, 1, []⟩ ∧
    call_ai key (.failure msg) = ⟨none, 1, []⟩ :=
  ⟨rfl, rfl⟩

/-- Concrete refutation of C5 as stated: the always-rate-limited provider is
posted to exactly once and no backoff sleep is taken. -/
theorem C5_counterexample : ¬C5_claim := by
  unfold C5_claim
  decide

/-- Claim C6: a provider with no configured credential returns AuthMissing
without attempting network I/O, and with no credentials at all the chain
returns Exhausted immediately without I/O.  As stated this fails on the
code (see `C6_counterexample`): `call_ai` never checks `GEMINI_API_KEY`; a
missing key is interpolated into the URL as the literal text `None` and
the single `requests.post` is attempted regardless, its failure reported as
the same `None` result as every other failure.  The amended claim proved
here: with no credential the call still attempts its one post, behaves
identically to a call with any credential under the same response, and
builds the URL with `None` spliced in (the markdown-artifact URL of line 52
reproduced verbatim). -/
theorem C6_thm (net : HttpOutcome) (k2 : String) :
    (call_ai none net).posts = 1 ∧ call_ai none net = call_ai (some k2) net ∧
    ai_url none
      = "[https://generativelanguage.googleapis.com/v1beta/models/gemini-2.0-flash:generateContent?key=](https://generativelanguage.googleapis.com/v1beta/models/gemini-2.0-flash:generateContent?key=)None" :=
  ⟨rfl, rfl, rfl⟩

/-- Concrete refutation of C6 as stated: with no credential configured the
code still attempts its network post instead of short-circuiting. -/
theorem C6_counterexample : ¬C6_claim := by
  unfold C6_claim
  decide

/-- Claim C7: `parse` returns the same two-element sequence for the bare
array text and for the object form; in general a decoded sequence is used
directly and a decoded mapping contributes its `problems` field when
present.  Confirmed: both concrete inputs decode-and-select to the same
two-element list, a decoded list is used as is, and a mapping's stored
`problems` value is selected when present. -/
theorem C7_thm :
    ((jsonLoads "[\"a\",\"b\"]").bind select_problems).bind iterSeq
        = some [Json.str "a", Json.str "b"] ∧
    ((jsonLoads "\x7b\"problems\":[\"a\",\"b\"]\x7d").bind select_problems).bind iterSeq
        = some [Json.str "a", Json.str "b"] ∧
    (∀ xs : List Json, select_problems (.arr xs) = some (.arr xs)) ∧
    (∀ (fields : List (String × Json)) (v : Json),
      lookupField fields "problems" = some v → select_problems (.obj fields) = some v) := by
  refine ⟨rfl, rfl, fun xs => rfl, fun fields v h => ?_⟩
  simp [select_problems, h]

/-- Witness for C7's mapping clause at a concrete one-field object. -/
theorem C7_witness : select_problems (Json.obj [("problems", Json.arr [])])
    = some (Json.arr []) :=
  C7_thm.2.2.2 [("problems", Json.arr [])] (Json.arr []) rfl

/-- Claim C8: every record's consumed flag goes false-to-true exactly once,
no field other than the flag and `usedAt` ever changes after creation, a
consumed record is never rolled back, and no record is deleted.
Confirmed: across any `get_problem` run the bank only grows, every
pre-existing record survives at its index, a consumed record is left
untouched (hence never rolled back), and an unconsumed one either stays
unchanged or flips once to consumed with only `usedAt` also set. -/
theorem C8_thm (fuel : Nat) (bank : List ProblemRecord) (t d : String)
    (net : Nat → HttpOutcome) (key : Option String) (k now : Nat) :
    bank.length ≤ ((get_problem fuel bank t d net key k now).2).length ∧
    (∀ (i : Nat) (r r2 : ProblemRecord), bank[i]? = some r →
      ((get_problem fuel bank t d net key k now).2)[i]? = some r2 → recEvolves r r2) :=
  get_problem_evolves fuel bank t d net key k now

/-- Claim C9: a refill for one key never mutates records of another key:
every inserted record carries exactly the requested topic and difficulty
with consumed initially false, and a claim only updates a record whose
topic, difficulty and unconsumed status match the key.  Confirmed: refill
output is the old bank plus records of the requested key only, the claim
query returns only a matching unconsumed record, and any record of a
different key is bit-for-bit unchanged at its position after a full run. -/
theorem C9_thm (fuel : Nat) (bank : List ProblemRecord) (t d : String)
    (net : Nat → HttpOutcome) (key : Option String) (k now : Nat) :
    (∀ (ai : Option String) (now2 : Nat) (r : ProblemRecord),
      r ∈ (refill_bank bank t d ai now2).1 →
      r ∈ bank ∨ (r.topic = t ∧ r.difficulty = d ∧ r.used = false)) ∧
    (∀ (i : Nat) (r : ProblemRecord), findUnused bank t d = some (i, r) →
      bank[i]? = some r ∧ r.topic = t ∧ r.difficulty = d ∧ r.used = false) ∧
    (∀ (i : Nat) (r : ProblemRecord), bank[i]? = some r →
      (r.topic ≠ t ∨ r.difficulty ≠ d) →
      ((get_problem fuel bank t d net key k now).2)[i]? = some r) := by
  refine ⟨fun ai now2 r hr => ?_, fun i r h => findUnused_some bank t d i r h,
    fun i r h1 hne => get_problem_frame fuel bank t d net key k now i r h1 hne⟩
  obtain ⟨new, hb2, -, hprops⟩ := refill_bank_spec bank t d ai now2
  rw [hb2] at hr
  rcases List.mem_append.mp hr with h | h
  · exact Or.inl h
  · exact Or.inr ⟨(hprops r h).1, (hprops r h).2.1, (hprops r h).2.2.1⟩

/-- Claim C10: a successful `acquire` returns the claimed record's payload
as the `json.dumps` string produced at insertion time, undecoded, so the
returned value decodes back to the inserted payload object.  Confirmed:
over a bank whose payloads are all serialized values (true of the empty
bank and preserved by every refill), a returned payload string is
`jsonDumps p` for the inserted value `p` and `jsonLoads` recovers exactly
that `p` (the caller must perform that decode, as `main` does). -/
theorem C10_thm (fuel : Nat) (bank : List ProblemRecord) (t d : String)
    (net : Nat → HttpOutcome) (key : Option String) (k now : Nat) (s : String)
    (hwf : BankWF bank)
    (hp : (get_problem fuel bank t d net key k now).1 = .payload s) :
    ∃ p : Json, s = jsonDumps p ∧ jsonLoads s = some p := by
  obtain ⟨p, rfl⟩ := get_problem_payload_wf fuel bank t d net key k now s hwf hp
  exact ⟨p, rfl, jsonLoads_jsonDumps p⟩

/-- Witness for C10: an end-to-end run from the empty pool with a provider
returning one problem; the returned payload string decodes back to the
inserted object. -/
theorem C10_witness :
    ∃ p : Json, "\x7b\"title\": \"Two Sum\"\x7d" = jsonDumps p ∧
      jsonLoads "\x7b\"title\": \"Two Sum\"\x7d" = some p :=
  C10_thm 2 [] "T" "D" (fun _ => .success "[\x7b\"title\": \"Two Sum\"\x7d]") (some "K") 0 0
    "\x7b\"title\": \"Two Sum\"\x7d" (fun r hr => absurd hr (List.not_mem_nil r)) rfl
